import Mathlib

/-!
Verification of the mdio `Variable` layer (`mdio/variable.h`): a shallow
embedding of the JSON metadata handling (schema split, open-time structural
conformance check), the label-aware slicing algorithm of `Variable::slice` /
`LabeledArray::slice`, and the shared attribute-cell versioning protocol
(`UpdateAttributes`, `was_updated`, `PublishMetadata`).

The chunked-array storage engine (tensorstore) and the key-value backend are
external collaborators; they are modelled only at their interface boundary
(domains as lists of (label, origin, extent) triples, key-value writes by the
path they target, label resolution by its result).
-/

namespace mdio

/-- JSON-like tree value (nlohmann::json model). Objects are association
lists; nlohmann stores object keys in a sorted `std::map`, so all concrete
objects in this development are written with sorted, duplicate-free keys and
the operations below preserve that form, making entrywise equality agree
with nlohmann equality. -/
inductive Json where
| null
| bool (b : Bool)
| num (n : Int)
| str (s : String)
| arr (elems : List Json)
| obj (entries : List (String × Json))

mutual
/-- Model of `nlohmann::json::operator==` (objects compared entrywise; under
the sorted-unique-keys representation invariant this is map equality). -/
def Json.beq : Json → Json → Bool
| .null, .null => true
| .bool a, .bool b => a == b
| .num a, .num b => a == b
| .str a, .str b => a == b
| .arr a, .arr b => Json.beqList a b
| .obj a, .obj b => Json.beqEntries a b
| _, _ => false

/-- Elementwise equality of JSON arrays. -/
def Json.beqList : List Json → List Json → Bool
| [], [] => true
| x :: xs, y :: ys => Json.beq x y && Json.beqList xs ys
| _, _ => false

/-- Entrywise equality of JSON object entry lists. -/
def Json.beqEntries : List (String × Json) → List (String × Json) → Bool
| [], [] => true
| (k, v) :: xs, (l, w) :: ys => k == l && Json.beq v w && Json.beqEntries xs ys
| _, _ => false
end

/-- Association-list lookup used by `nlohmann::json::operator[]` on objects. -/
def lookupEntries : List (String × Json) → String → Option Json
| [], _ => none
| (k, v) :: rest, key => if k = key then some v else lookupEntries rest key

/-- Lookup of a key in a JSON value; `none` on non-objects or missing keys. -/
def Json.lookup : Json → String → Option Json
| .obj entries, key => lookupEntries entries key
| _, _ => none

/-- Model of `nlohmann::json::contains`. -/
def Json.contains (j : Json) (key : String) : Bool :=
  (j.lookup key).isSome

/-- Model of const `operator[]` where the caller guarantees presence; the
C++ const accessor on a missing key is undefined behaviour, modelled as
`null`. -/
def Json.getKey (j : Json) (key : String) : Json :=
  (j.lookup key).getD .null

/-- Model of `nlohmann::json::erase(key)` on an object (no-op otherwise). -/
def eraseEntries : List (String × Json) → String → List (String × Json)
| [], _ => []
| (k, v) :: rest, key =>
  if k = key then eraseEntries rest key else (k, v) :: eraseEntries rest key

/-- Erase a key from a JSON object. -/
def Json.erase : Json → String → Json
| .obj entries, key => .obj (eraseEntries entries key)
| j, _ => j

/-- Sorted insert-or-assign, mirroring `std::map` assignment through
`operator[]`. -/
def setEntries : List (String × Json) → String → Json → List (String × Json)
| [], key, v => [(key, v)]
| (k, w) :: rest, key, v =>
  if k = key then (key, v) :: rest
  else if key < k then (key, v) :: (k, w) :: rest
  else (k, w) :: setEntries rest key v

/-- Model of `j[key] = v`: assignment into an object (a `null` becomes a
fresh object, as in nlohmann; the C++ call throws on other types, which no
modelled code path reaches). -/
def Json.setKey : Json → String → Json → Json
| .obj entries, key, v => .obj (setEntries entries key v)
| .null, key, v => .obj [(key, v)]
| j, _, _ => j

/-- Model of `nlohmann::json::items()`; the modelled code iterates only
objects. -/
def Json.items : Json → List (String × Json)
| .obj entries => entries
| _ => []

/-- Model of `nlohmann::json::is_object()`. -/
def Json.isObj : Json → Bool
| .obj _ => true
| _ => false

mutual
/-- Structural size of a JSON tree, used as a termination measure. -/
def Json.size : Json → Nat
| .null => 1
| .bool _ => 1
| .num _ => 1
| .str _ => 1
| .arr elems => 1 + Json.sizeList elems
| .obj entries => 1 + Json.sizeEntries entries

/-- Size of a list of JSON values. -/
def Json.sizeList : List Json → Nat
| [] => 0
| x :: xs => Json.size x + Json.sizeList xs + 1

/-- Size of the entry list of a JSON object. -/
def Json.sizeEntries : List (String × Json) → Nat
| [] => 0
| (_, v) :: rest => Json.size v + Json.sizeEntries rest + 1
end

theorem Json.size_pos : ∀ j : Json, 1 ≤ j.size := by
  intro j
  cases j <;> simp [Json.size]

/-- Error kinds of `absl::Status` as used by this layer. -/
inductive ErrKind where
| invalidArgument
| notFound
| outOfRange
deriving DecidableEq

/-- Outcome of the open-time structural conformance check (lines 490-510 of
`variable.h`): success, `absl::NotFoundError("Field not found in JSON: " k)`,
or `absl::InvalidArgumentError("Conflicting values for field: " k ...)`
carrying the two conflicting values. -/
inductive CheckResult where
| ok
| notFound (key : String)
| conflict (key : String) (expected got : Json)

/-- Status kind of a conformance-check outcome. -/
def CheckResult.kind : CheckResult → Option ErrKind
| .ok => none
| .notFound _ => some .notFound
| .conflict _ _ _ => some .invalidArgument

/-- One queue round of the BFS loop: iterate the persisted subtree's entries
in order against the supplied subtree `attrs`; a missing key is `NotFound`,
two objects are enqueued, anything else must compare equal or is a
conflict. Returns the pairs pushed onto the queue by this round. -/
def scanEntries (attrs : Json) : List (String × Json) →
    Except CheckResult (List (Json × Json))
| [] => .ok []
| (k, v) :: rest =>
  match attrs.lookup k with
  | none => .error (.notFound k)
  | some w =>
    if v.isObj && w.isObj then
      match scanEntries attrs rest with
      | .error e => .error e
      | .ok pairs => .ok ((v, w) :: pairs)
    else if Json.beq v w then
      scanEntries attrs rest
    else
      .error (.conflict k v w)

/-- Sum of the sizes of the persisted-side components of a queue. -/
def queueSize : List (Json × Json) → Nat
| [] => 0
| pr :: rest => Json.size pr.1 + queueSize rest

theorem queueSize_append (a b : List (Json × Json)) :
    queueSize (a ++ b) = queueSize a + queueSize b := by
  induction a with
  | nil => simp [queueSize]
  | cons hd tl ih => simp [queueSize, ih]; omega

/-- Values of an entry list, counted by size. -/
def valsSize : List (String × Json) → Nat
| [] => 0
| (_, v) :: rest => Json.size v + valsSize rest

theorem scanEntries_size (attrs : Json) :
    ∀ (l : List (String × Json)) (pairs : List (Json × Json)),
      scanEntries attrs l = .ok pairs → queueSize pairs ≤ valsSize l := by
  intro l
  induction l with
  | nil =>
    intro pairs h
    simp [scanEntries] at h
    subst h
    simp [queueSize]
  | cons hd tl ih =>
    intro pairs h
    obtain ⟨k, v⟩ := hd
    simp only [scanEntries] at h
    cases hw : Json.lookup attrs k with
    | none => simp [hw] at h
    | some w =>
      simp only [hw] at h
      by_cases hobj : (v.isObj && w.isObj) = true
      · simp only [hobj, if_true] at h
        cases hrest : scanEntries attrs tl with
        | error e => simp [hrest] at h
        | ok pairs2 =>
          simp only [hrest] at h
          cases h
          have := ih pairs2 hrest
          simp only [queueSize, valsSize]
          omega
      · simp only [hobj, if_false] at h
        by_cases heq : Json.beq v w = true
        · simp only [heq, if_true] at h
          have := ih pairs h
          simp only [valsSize]
          omega
        · simp [heq] at h

theorem valsSize_le_sizeEntries (l : List (String × Json)) :
    valsSize l ≤ Json.sizeEntries l := by
  induction l with
  | nil => simp [valsSize, Json.sizeEntries]
  | cons hd tl ih =>
    obtain ⟨k, v⟩ := hd
    simp only [valsSize, Json.sizeEntries]
    omega

theorem valsSize_items_lt (p : Json) : valsSize p.items < Json.size p := by
  cases p with
  | obj entries =>
    have := valsSize_le_sizeEntries entries
    simp only [Json.items, Json.size]
    omega
  | null => simp [Json.items, valsSize, Json.size]
  | bool b => simp [Json.items, valsSize, Json.size]
  | num n => simp [Json.items, valsSize, Json.size]
  | str s => simp [Json.items, valsSize, Json.size]
  | arr elems => simp [Json.items, valsSize, Json.size]

/-- The breadth-first queue loop of the conformance check (the
`while (!queue.empty())` loop in `OpenVariable`'s `make_variable`). -/
def bfs : List (Json × Json) → CheckResult
| [] => .ok
| (p, s) :: rest =>
  match h : scanEntries s p.items with
  | .error e => e
  | .ok pairs => bfs (rest ++ pairs)
termination_by q => queueSize q
decreasing_by
  have h1 := scanEntries_size s p.items pairs h
  have h2 := valsSize_items_lt p
  simp only [queueSize_append, queueSize]
  omega


theorem scanEntries_error_ne_ok (attrs : Json) :
    ∀ (l : List (String × Json)) (e : CheckResult),
      scanEntries attrs l = .error e → e ≠ .ok := by
  intro l
  induction l with
  | nil => intro e h; simp [scanEntries] at h
  | cons hd tl ih =>
    intro e h
    obtain ⟨k, v⟩ := hd
    simp only [scanEntries] at h
    cases hw : Json.lookup attrs k with
    | none =>
      simp only [hw] at h
      cases h
      intro hc; cases hc
    | some w =>
      simp only [hw] at h
      by_cases hobj : (v.isObj && w.isObj) = true
      · simp only [hobj, if_true] at h
        cases hrest : scanEntries attrs tl with
        | error e2 =>
          simp only [hrest] at h
          cases h
          exact ih _ hrest
        | ok pairs => simp [hrest] at h
      · simp only [hobj, if_false] at h
        by_cases heq : Json.beq v w = true
        · simp only [heq, if_true] at h
          exact ih e h
        · simp only [heq, if_false] at h
          cases h
          intro hc; cases hc

mutual
/-- Spec-side reading of the structural conformance requirement: every key
present in the persisted subtree must be present in the supplied subtree;
nested objects are compared recursively and all other values must compare
equal. -/
def specConforms : Json → Json → Bool
| .obj entries, s => specConformsEntries entries s
| _, _ => true

/-- Conformance of one entry list of a persisted subtree against a supplied
subtree. -/
def specConformsEntries : List (String × Json) → Json → Bool
| [], _ => true
| (k, v) :: rest, s =>
  (match s.lookup k with
   | none => false
   | some w => if v.isObj && w.isObj then specConforms v w else Json.beq v w)
  && specConformsEntries rest s
end

theorem scanEntries_error_conforms (s : Json) :
    ∀ (l : List (String × Json)) (e : CheckResult),
      scanEntries s l = .error e → specConformsEntries l s = false := by
  intro l
  induction l with
  | nil => intro e h; simp [scanEntries] at h
  | cons hd tl ih =>
    intro e h
    obtain ⟨k, v⟩ := hd
    simp only [scanEntries] at h
    cases hw : Json.lookup s k with
    | none => simp [specConformsEntries, hw]
    | some w =>
      simp only [hw] at h
      by_cases hobj : (v.isObj && w.isObj) = true
      · simp only [hobj, if_true] at h
        cases hrest : scanEntries s tl with
        | error e2 =>
          simp [specConformsEntries, hw, ih e2 hrest]
        | ok pairs => simp [hrest] at h
      · simp only [hobj, if_false] at h
        by_cases heq : Json.beq v w = true
        · simp only [heq, if_true] at h
          simp [specConformsEntries, hw, ih e h]
        · simp [specConformsEntries, hw, hobj, heq]

theorem scanEntries_ok_conforms (s : Json) :
    ∀ (l : List (String × Json)) (pairs : List (Json × Json)),
      scanEntries s l = .ok pairs →
      specConformsEntries l s = pairs.all fun pr => specConforms pr.1 pr.2 := by
  intro l
  induction l with
  | nil =>
    intro pairs h
    simp [scanEntries] at h
    subst h
    simp [specConformsEntries]
  | cons hd tl ih =>
    intro pairs h
    obtain ⟨k, v⟩ := hd
    simp only [scanEntries] at h
    cases hw : Json.lookup s k with
    | none => simp [hw] at h
    | some w =>
      simp only [hw] at h
      by_cases hobj : (v.isObj && w.isObj) = true
      · simp only [hobj, if_true] at h
        cases hrest : scanEntries s tl with
        | error e => simp [hrest] at h
        | ok pairs2 =>
          simp only [hrest] at h
          cases h
          simp [specConformsEntries, hw, hobj, ih pairs2 hrest]
      · simp only [hobj, if_false] at h
        by_cases heq : Json.beq v w = true
        · simp only [heq, if_true] at h
          simp [specConformsEntries, hw, hobj, heq, ih pairs h]
        · simp [heq] at h

theorem scanEntries_items_error (p s : Json) (e : CheckResult)
    (h : scanEntries s p.items = .error e) : specConforms p s = false := by
  cases p with
  | obj entries => simpa [specConforms] using scanEntries_error_conforms s entries e h
  | null => simp [Json.items, scanEntries] at h
  | bool b => simp [Json.items, scanEntries] at h
  | num n => simp [Json.items, scanEntries] at h
  | str t => simp [Json.items, scanEntries] at h
  | arr elems => simp [Json.items, scanEntries] at h

theorem scanEntries_items_ok (p s : Json) (pairs : List (Json × Json))
    (h : scanEntries s p.items = .ok pairs) :
    specConforms p s = pairs.all fun pr => specConforms pr.1 pr.2 := by
  cases p with
  | obj entries => simpa [specConforms] using scanEntries_ok_conforms s entries pairs h
  | null => simp [Json.items, scanEntries] at h; subst h; simp [specConforms]
  | bool b => simp [Json.items, scanEntries] at h; subst h; simp [specConforms]
  | num n => simp [Json.items, scanEntries] at h; subst h; simp [specConforms]
  | str t => simp [Json.items, scanEntries] at h; subst h; simp [specConforms]
  | arr elems => simp [Json.items, scanEntries] at h; subst h; simp [specConforms]

/-- Every queued pair conforms. -/
def allConform (q : List (Json × Json)) : Bool :=
  q.all fun pr => specConforms pr.1 pr.2

theorem bfs_ok_aux :
    ∀ (n : Nat) (q : List (Json × Json)), queueSize q ≤ n →
      (bfs q = .ok ↔ allConform q = true) := by
  intro n
  induction n with
  | zero =>
    intro q hq
    cases q with
    | nil => simp [bfs, allConform]
    | cons pr rest =>
      exfalso
      have := Json.size_pos pr.1
      simp [queueSize] at hq
      omega
  | succ n ih =>
    intro q hq
    cases q with
    | nil => simp [bfs, allConform]
    | cons pr rest =>
      obtain ⟨p, s⟩ := pr
      rw [bfs]
      cases hscan : scanEntries s p.items with
      | error e =>
        have hne := scanEntries_error_ne_ok s p.items e hscan
        have hcf := scanEntries_items_error p s e hscan
        simp only [allConform, List.all_cons, hcf, Bool.false_and]
        simp [hne]
      | ok pairs =>
        have hsz := scanEntries_size s p.items pairs hscan
        have hlt := valsSize_items_lt p
        have hq2 : queueSize (rest ++ pairs) ≤ n := by
          rw [queueSize_append]
          simp only [queueSize] at hq
          omega
        rw [ih (rest ++ pairs) hq2]
        have hcf := scanEntries_items_ok p s pairs hscan
        simp only [allConform, List.all_append, List.all_cons, hcf]
        constructor
        · intro hb
          simp at hb ⊢
          exact ⟨hb.2, hb.1⟩
        · intro hb
          simp at hb ⊢
          exact ⟨hb.2, hb.1⟩

/-- Hoist a nested `metadata` sub-document's entries to the top level of
`a` and drop the `metadata` key, optionally erasing `chunkGrid` first
(the merge-up transform applied to both sides before the BFS). -/
def mergeMetaUp (a : Json) (dropChunkGrid : Bool) : Json :=
  match a.lookup "metadata" with
  | some m =>
    let m2 := if dropChunkGrid then m.erase "chunkGrid" else m
    (m2.items.foldl (fun acc kv => acc.setKey kv.1 kv.2) a).erase "metadata"
  | none => a

/-- Normalization of the caller-supplied attributes (`correctedSuppliedAttrs`
in `make_variable`): inside the `attributes` wrapper, erase `chunkGrid` from
any nested `metadata` and hoist the remaining `metadata` entries up. -/
def normalizeSupplied (j : Json) : Json :=
  match j.lookup "attributes" with
  | some a => j.setKey "attributes" (mergeMetaUp a true)
  | none => j

/-- Normalization of the persisted side (`searchableMetadata` in
`make_variable`): drop `variable_name` and hoist nested `metadata` entries
up (no `chunkGrid` erasure on this side). -/
def normalizeSearchable (j : Json) : Json :=
  match j.lookup "attributes" with
  | some a => j.setKey "attributes" (mergeMetaUp (a.erase "variable_name") false)
  | none => j

/-- The structural conformance check run by `make_variable` when the caller
supplied expected attributes: normalize both sides, then process the
breadth-first queue seeded with the full (persisted, supplied) pair. -/
def conformanceCheck (new_metadata suppliedAttributes : Json) : CheckResult :=
  bfs [(normalizeSearchable new_metadata, normalizeSupplied suppliedAttributes)]

/-- Translation of the persisted side-document's `_ARRAY_DIMENSIONS` key back
into `dimension_names` (lines 442-447 of `variable.h`). -/
def renameArrayDims (a : Json) : Json :=
  match a.lookup "_ARRAY_DIMENSIONS" with
  | some d => (a.setKey "dimension_names" d).erase "_ARRAY_DIMENSIONS"
  | none => a

/-- The `new_metadata` object built by `make_variable` from the parsed
side-document: wrapped under `attributes`, with `variable_name` injected and
`_ARRAY_DIMENSIONS` renamed. -/
def newMetadataOf (persisted : Json) (vn : String) : Json :=
  Json.obj [("attributes", renameArrayDims (persisted.setKey "variable_name" (.str vn)))]

/-- Open-time conformance of persisted attributes against caller-supplied
attributes (the supplied document is retained under an `attributes` wrapper
by `OpenVariable` before the store spec is handed to the engine). -/
def openConformance (persisted supplied : Json) (vn : String) : CheckResult :=
  conformanceCheck (newMetadataOf persisted vn) (Json.obj [("attributes", supplied)])

/-- Example persisted attributes from the spec: `{"a": 1, "b": {"c": 2}}`. -/
def exPersisted : Json := .obj [("a", .num 1), ("b", .obj [("c", .num 2)])]

/-- Example supplied attributes with a conflicting nested value. -/
def exSupplied1 : Json := .obj [("a", .num 1), ("b", .obj [("c", .num 3)])]

/-- Example supplied attributes missing the key `b`. -/
def exSupplied2 : Json := .obj [("a", .num 1)]

/-- Claim C1: with caller-supplied expected attributes, the open-time
structural conformance check processes a breadth-first queue of
(persisted-subtree, supplied-subtree) pairs; a key of the persisted subtree
missing from the supplied subtree fails the open with `NotFound` naming the
key, two nested objects are queued for further comparison, other values must
compare equal or the open fails with `InvalidArgument` naming the offending
key and the two values, and the check succeeds exactly when every pair
conforms. The first clause characterizes the queue loop against the
recursive conformance reading; the remaining clauses settle the three
spec examples together with the reported error kinds. -/
theorem C1_conformance_check :
    (∀ nm sa, conformanceCheck nm sa = .ok ↔
      specConforms (normalizeSearchable nm) (normalizeSupplied sa) = true) ∧
    openConformance exPersisted exSupplied1 "v" = .conflict "c" (.num 2) (.num 3) ∧
    CheckResult.kind (openConformance exPersisted exSupplied1 "v") =
      some .invalidArgument ∧
    openConformance exPersisted exSupplied2 "v" = .notFound "b" ∧
    CheckResult.kind (openConformance exPersisted exSupplied2 "v") =
      some .notFound ∧
    openConformance exPersisted exPersisted "v" = .ok := by
  refine ⟨?_, ?_, ?_, ?_, ?_, ?_⟩
  · intro nm sa
    rw [conformanceCheck, bfs_ok_aux (queueSize
      [(normalizeSearchable nm, normalizeSupplied sa)]) _ (Nat.le_refl _)]
    simp [allConform]
  · simp [openConformance, conformanceCheck, newMetadataOf, renameArrayDims,
      normalizeSupplied, normalizeSearchable, mergeMetaUp, exPersisted, exSupplied1,
      bfs, scanEntries, Json.items, Json.lookup, lookupEntries, Json.isObj, Json.beq,
      Json.setKey, setEntries, Json.erase, eraseEntries]
  · simp [openConformance, conformanceCheck, newMetadataOf, renameArrayDims,
      normalizeSupplied, normalizeSearchable, mergeMetaUp, exPersisted, exSupplied1,
      bfs, scanEntries, Json.items, Json.lookup, lookupEntries, Json.isObj, Json.beq,
      Json.setKey, setEntries, Json.erase, eraseEntries, CheckResult.kind]
  · simp [openConformance, conformanceCheck, newMetadataOf, renameArrayDims,
      normalizeSupplied, normalizeSearchable, mergeMetaUp, exPersisted, exSupplied2,
      bfs, scanEntries, Json.items, Json.lookup, lookupEntries, Json.isObj, Json.beq,
      Json.setKey, setEntries, Json.erase, eraseEntries]
  · simp [openConformance, conformanceCheck, newMetadataOf, renameArrayDims,
      normalizeSupplied, normalizeSearchable, mergeMetaUp, exPersisted, exSupplied2,
      bfs, scanEntries, Json.items, Json.lookup, lookupEntries, Json.isObj, Json.beq,
      Json.setKey, setEntries, Json.erase, eraseEntries, CheckResult.kind]
  · simp [openConformance, conformanceCheck, newMetadataOf, renameArrayDims,
      normalizeSupplied, normalizeSearchable, mergeMetaUp, exPersisted,
      bfs, scanEntries, Json.items, Json.lookup, lookupEntries, Json.isObj, Json.beq,
      Json.setKey, setEntries, Json.erase, eraseEntries]

/-- Model of `tensorstore::DimensionIdentifier`: a dimension named by label
or by position. -/
inductive DimId where
| byLabel (s : String)
| byIndex (i : Int)
deriving DecidableEq

/-- One dimension of an index domain: label, inclusive origin and extent
(`domain.labels()[i]`, `domain.origin()[i]`, `domain.shape()[i]`). -/
structure Dim where
  label : String
  origin : Int
  size : Int
deriving DecidableEq

/-- Model of `mdio::SliceDescriptor`: a half-open interval `[start, stop)`
with a stride along one dimension. -/
structure SliceDescriptor where
  label : DimId
  start : Int
  stop : Int
  step : Int
deriving DecidableEq

/-- Comparison of a domain label against a `DimensionIdentifier`
(`labels[idx] == desc.label`); an index-form identifier never equals a
label string. -/
def DimId.matchesLabel : DimId → String → Bool
| .byLabel s, l => s == l
| .byIndex _, _ => false

/-- Model of `Variable::hasLabel`: an index-form identifier is valid iff it
is within `[0, rank)`; a label-form identifier must occur among the domain's
labels. -/
def hasLabel (dims : List Dim) : DimId → Bool
| .byIndex i => decide (i < (dims.length : Int)) && decide (0 ≤ i)
| .byLabel s => dims.any fun d => d.label == s

/-- Model of `Variable::sliceInRange`: find the first domain dimension whose
label equals the descriptor's identifier; raise `start` to that dimension's
origin if lower and lower `stop` to that dimension's extent (`shape()[idx]`)
if higher. A descriptor naming no dimension of the domain is returned
unmodified. -/
def sliceInRange (dims : List Dim) (desc : SliceDescriptor) : SliceDescriptor :=
  match dims with
  | [] => desc
  | d :: rest =>
    if DimId.matchesLabel desc.label d.label then
      { label := desc.label,
        start := if desc.start < d.origin then d.origin else desc.start,
        stop := if desc.stop > d.size then d.size else desc.stop,
        step := desc.step }
    else sliceInRange rest desc

/-- The `preconditionStatus` variable of `Variable::slice`: `-1` (ok), `-2`
(a descriptor with step other than 1 was seen), or the index of a descriptor
whose clamped bounds are inverted. -/
inductive Precond where
| ok
| stepErr
| orderErr (idx : Nat)
deriving DecidableEq

/-- The descriptor fold of `Variable::slice`: per descriptor, a non-unit
step records `stepErr`; otherwise the descriptor is clamped, inverted
clamped bounds record the descriptor's index, and a clamped descriptor whose
identifier is valid for the domain is accumulated. Later descriptors keep
overwriting the status, as in the source. -/
def sliceLoop (dims : List Dim) :
    List SliceDescriptor → Nat → Precond → List SliceDescriptor →
    Precond × List SliceDescriptor
| [], _, st, acc => (st, acc)
| d :: rest, idx, st, acc =>
  if d.step ≠ 1 then
    sliceLoop dims rest (idx + 1) .stepErr acc
  else
    let c := sliceInRange dims d
    if c.start > c.stop then
      sliceLoop dims rest (idx + 1) (.orderErr idx) acc
    else if hasLabel dims c.label then
      sliceLoop dims rest (idx + 1) st (acc ++ [c])
    else
      sliceLoop dims rest (idx + 1) st acc

/-- Errors returned by `Variable::slice`: the non-unit-step
`InvalidArgumentError`, the inverted-bounds `InvalidArgumentError` (which
names the reported descriptor's label, start and stop), or a propagated
error from the storage engine's interval restriction. -/
inductive SliceError where
| stepNotOne
| illegalConfig (label : DimId) (start stop : Int)
| storeSliceFailed
deriving DecidableEq

/-- Status kind of a slice error (`absl::InvalidArgumentError` for both
validation failures; the engine's out-of-range restriction failure for the
propagated case). -/
def SliceError.kind : SliceError → ErrKind
| .stepNotOne => .invalidArgument
| .illegalConfig _ _ _ => .invalidArgument
| .storeSliceFailed => .outOfRange

/-- Model of `mdio::Variable`: name, long name, reduced metadata, the
durable store handle reduced to its labeled domain, and the shared attribute
cell reduced to an opaque identity. -/
structure Variable where
  variableName : String
  longName : String
  metadata : Json
  dims : List Dim
  attributes : Nat

/-- Resolution of a `DimensionIdentifier` against a domain, as performed by
`tensorstore::Dims(...).Resolve`: labels resolve to the position of the
matching dimension, indices resolve within `[-rank, rank)` with negative
wrap-around. -/
def idxOfLabel : List Dim → String → Option Nat
| [], _ => none
| d :: rest, s => if d.label = s then some 0 else (idxOfLabel rest s).map (· + 1)

/-- Resolve one dimension identifier against a domain. -/
def resolveDim (dims : List Dim) : DimId → Option Nat
| .byLabel s => idxOfLabel dims s
| .byIndex i =>
  if 0 ≤ i then (if i < (dims.length : Int) then some i.toNat else none)
  else (if 0 ≤ i + (dims.length : Int) then some (i + (dims.length : Int)).toNat else none)

/-- Application of one accumulated clamped descriptor to a domain, modelling
the storage engine's `HalfOpenInterval` restriction at its interface
boundary: the interval must lie within the dimension's current bounds and
the dimension's origin/extent become `start`/`stop - start`. -/
def applyDesc (dims : List Dim) (c : SliceDescriptor) : Except SliceError (List Dim) :=
  match resolveDim dims c.label with
  | none => .error .storeSliceFailed
  | some i =>
    match dims.get? i with
    | none => .error .storeSliceFailed
    | some d =>
      if d.origin ≤ c.start then
        if c.stop ≤ d.origin + d.size then
          .ok (dims.set i { label := d.label, origin := c.start, size := c.stop - c.start })
        else .error .storeSliceFailed
      else .error .storeSliceFailed

/-- Application of all accumulated descriptors
(`store | tensorstore::Dims(labels).HalfOpenInterval(start, stop, step)`). -/
def applyAll (dims : List Dim) : List SliceDescriptor → Except SliceError (List Dim)
| [] => .ok dims
| c :: rest =>
  match applyDesc dims c with
  | .error e => .error e
  | .ok dims2 => applyAll dims2 rest

/-- The descriptor at the recorded error index (`err` in the second
descriptor pass of `Variable::slice`; default-constructed if never
assigned, which cannot happen for an in-range index). -/
def defaultDescriptor : SliceDescriptor :=
  { label := .byLabel "", start := 0, stop := 0, step := 0 }

/-- Model of `Variable::slice`: run the descriptor fold; report the step
error, else the inverted-bounds error naming the original descriptor at the
recorded index, else restrict the store across the accumulated descriptors,
returning the Variable itself unchanged when nothing was accumulated. -/
def Variable.slice (v : Variable) (descs : List SliceDescriptor) :
    Except SliceError Variable :=
  match sliceLoop v.dims descs 0 .ok [] with
  | (.stepErr, _) => .error .stepNotOne
  | (.orderErr i, _) =>
    let err := descs.getD i defaultDescriptor
    .error (.illegalConfig err.label err.start err.stop)
  | (.ok, acc) =>
    if acc.isEmpty then .ok v
    else
      match applyAll v.dims acc with
      | .error e => .error e
      | .ok dims2 =>
        .ok { variableName := v.variableName, longName := v.longName,
              metadata := v.metadata, dims := dims2, attributes := v.attributes }

/-- Model of `mdio::LabeledArray`: an in-memory array value carrying a
labeled domain; the data buffer is opaque to this layer. -/
structure LabeledArray (α : Type) where
  domain : List Dim
  data : α

/-- Errors returned by `LabeledArray::slice`: the non-unit-step
`InvalidArgumentError`, or the propagated label-resolution failure (the
engine reports an unmatched label or out-of-range index as
`InvalidArgumentError`). -/
inductive MemSliceError where
| stepNotOne
| resolveFailed (label : DimId)
deriving DecidableEq

/-- Status kind of an in-memory slice error. -/
def MemSliceError.kind : MemSliceError → ErrKind
| .stepNotOne => .invalidArgument
| .resolveFailed _ => .invalidArgument

/-- The descriptor fold of `LabeledArray::slice`: per descriptor, resolution
failure overwrites the captured overall status and skips the rest of that
descriptor's body; on successful resolution a non-unit step clears the
precondition flag and the resolved dimension index is recorded. -/
def memLoop (dom : List Dim) :
    List SliceDescriptor → Option DimId → Bool → List Nat →
    Option DimId × Bool × List Nat
| [], overall, pc, ds => (overall, pc, ds)
| d :: rest, overall, pc, ds =>
  match resolveDim dom d.label with
  | none => memLoop dom rest (some d.label) pc ds
  | some i => memLoop dom rest overall (pc && decide (d.step = 1)) (ds ++ [i])

/-- The successful result of an in-memory slice, modelling
`data | Dims(dims).TranslateHalfOpenInterval(start, stop, step) |
Materialize(alloc)` at the engine's interface boundary. -/
structure TranslatedSlice (α : Type) where
  dims : List Nat
  start : List Int
  stop : List Int
  step : List Int
  data : α

/-- Model of `LabeledArray::slice`: resolve every descriptor, then fail with
the step error if any resolved descriptor had a non-unit step, else fail
with the last captured resolution error, else restrict and materialize. -/
def LabeledArray.slice {α : Type} (la : LabeledArray α)
    (descs : List SliceDescriptor) : Except MemSliceError (TranslatedSlice α) :=
  match memLoop la.domain descs none true [] with
  | (overall, pc, ds) =>
    if pc = false then .error .stepNotOne
    else
      match overall with
      | some l => .error (.resolveFailed l)
      | none =>
        .ok { dims := ds, start := descs.map (·.start), stop := descs.map (·.stop),
              step := descs.map (·.step), data := la.data }

theorem sliceLoop_ok_imp (dims : List Dim) :
    ∀ (descs : List SliceDescriptor) (idx : Nat) (st : Precond)
      (acc : List SliceDescriptor),
      (sliceLoop dims descs idx st acc).1 = .ok → st = .ok := by
  intro descs
  induction descs with
  | nil => intro idx st acc h; simpa [sliceLoop] using h
  | cons d rest ih =>
    intro idx st acc h
    simp only [sliceLoop] at h
    by_cases hs : d.step ≠ 1
    · rw [if_pos hs] at h
      have := ih _ _ _ h
      cases this
    · rw [if_neg hs] at h
      by_cases hv : (sliceInRange dims d).start > (sliceInRange dims d).stop
      · rw [if_pos hv] at h
        have := ih _ _ _ h
        cases this
      · rw [if_neg hv] at h
        by_cases hl : hasLabel dims (sliceInRange dims d).label = true
        · rw [if_pos hl] at h
          exact ih _ _ _ h
        · rw [if_neg hl] at h
          exact ih _ _ _ h

theorem sliceLoop_step_bad (dims : List Dim) :
    ∀ (descs : List SliceDescriptor) (idx : Nat) (st : Precond)
      (acc : List SliceDescriptor),
      (∃ d ∈ descs, d.step ≠ 1) →
      (sliceLoop dims descs idx st acc).1 ≠ .ok := by
  intro descs
  induction descs with
  | nil => intro idx st acc h; simp at h
  | cons d rest ih =>
    intro idx st acc h hok
    simp only [sliceLoop] at hok
    by_cases hs : d.step ≠ 1
    · rw [if_pos hs] at hok
      have := sliceLoop_ok_imp dims rest _ _ _ hok
      cases this
    · rw [if_neg hs] at hok
      obtain ⟨d2, hd2, hstep2⟩ := h
      rcases List.mem_cons.mp hd2 with heq | hmem
      · subst heq; exact hs hstep2
      · by_cases hv : (sliceInRange dims d).start > (sliceInRange dims d).stop
        · rw [if_pos hv] at hok
          exact ih _ _ _ ⟨d2, hmem, hstep2⟩ hok
        · rw [if_neg hv] at hok
          by_cases hl : hasLabel dims (sliceInRange dims d).label = true
          · rw [if_pos hl] at hok
            exact ih _ _ _ ⟨d2, hmem, hstep2⟩ hok
          · rw [if_neg hl] at hok
            exact ih _ _ _ ⟨d2, hmem, hstep2⟩ hok

theorem sliceLoop_viol_bad (dims : List Dim) :
    ∀ (descs : List SliceDescriptor) (idx : Nat) (st : Precond)
      (acc : List SliceDescriptor),
      (∃ d ∈ descs, (sliceInRange dims d).start > (sliceInRange dims d).stop) →
      (sliceLoop dims descs idx st acc).1 ≠ .ok := by
  intro descs
  induction descs with
  | nil => intro idx st acc h; simp at h
  | cons d rest ih =>
    intro idx st acc h hok
    simp only [sliceLoop] at hok
    by_cases hs : d.step ≠ 1
    · rw [if_pos hs] at hok
      have := sliceLoop_ok_imp dims rest _ _ _ hok
      cases this
    · rw [if_neg hs] at hok
      obtain ⟨d2, hd2, hviol2⟩ := h
      rcases List.mem_cons.mp hd2 with heq | hmem
      · subst heq
        rw [if_pos hviol2] at hok
        have := sliceLoop_ok_imp dims rest _ _ _ hok
        cases this
      · by_cases hv : (sliceInRange dims d).start > (sliceInRange dims d).stop
        · rw [if_pos hv] at hok
          have := sliceLoop_ok_imp dims rest _ _ _ hok
          cases this
        · rw [if_neg hv] at hok
          by_cases hl : hasLabel dims (sliceInRange dims d).label = true
          · rw [if_pos hl] at hok
            exact ih _ _ _ ⟨d2, hmem, hviol2⟩ hok
          · rw [if_neg hl] at hok
            exact ih _ _ _ ⟨d2, hmem, hviol2⟩ hok

theorem sliceLoop_no_stepErr (dims : List Dim) :
    ∀ (descs : List SliceDescriptor) (idx : Nat) (st : Precond)
      (acc : List SliceDescriptor),
      (∀ d ∈ descs, d.step = 1) → st ≠ .stepErr →
      (sliceLoop dims descs idx st acc).1 ≠ .stepErr := by
  intro descs
  induction descs with
  | nil => intro idx st acc hall hst h; exact hst (by simpa [sliceLoop] using h)
  | cons d rest ih =>
    intro idx st acc hall hst h
    simp only [sliceLoop] at h
    have hs : ¬ d.step ≠ 1 := by
      have := hall d (List.mem_cons_self d rest)
      simp [this]
    rw [if_neg hs] at h
    have hall2 : ∀ d2 ∈ rest, d2.step = 1 :=
      fun d2 hm => hall d2 (List.mem_cons_of_mem d hm)
    by_cases hv : (sliceInRange dims d).start > (sliceInRange dims d).stop
    · rw [if_pos hv] at h
      exact ih _ _ _ hall2 (by intro hc; cases hc) h
    · rw [if_neg hv] at h
      by_cases hl : hasLabel dims (sliceInRange dims d).label = true
      · rw [if_pos hl] at h
        exact ih _ _ _ hall2 hst h
      · rw [if_neg hl] at h
        exact ih _ _ _ hall2 hst h

theorem sliceLoop_orderErr_char (dims : List Dim) :
    ∀ (descs : List SliceDescriptor) (idx : Nat) (st : Precond)
      (acc : List SliceDescriptor) (i : Nat),
      (sliceLoop dims descs idx st acc).1 = .orderErr i →
      st = .orderErr i ∨
      ∃ j d, descs.get? j = some d ∧ idx + j = i ∧
        (sliceInRange dims d).start > (sliceInRange dims d).stop := by
  intro descs
  induction descs with
  | nil => intro idx st acc i h; exact Or.inl (by simpa [sliceLoop] using h)
  | cons d rest ih =>
    intro idx st acc i h
    simp only [sliceLoop] at h
    by_cases hs : d.step ≠ 1
    · rw [if_pos hs] at h
      rcases ih _ _ _ _ h with hcase | ⟨j, d2, hj, hij, hviol⟩
      · cases hcase
      · exact Or.inr ⟨j + 1, d2, by simpa using hj, by omega, hviol⟩
    · rw [if_neg hs] at h
      by_cases hv : (sliceInRange dims d).start > (sliceInRange dims d).stop
      · rw [if_pos hv] at h
        rcases ih _ _ _ _ h with hcase | ⟨j, d2, hj, hij, hviol⟩
        · cases hcase
          exact Or.inr ⟨0, d, rfl, by omega, hv⟩
        · exact Or.inr ⟨j + 1, d2, by simpa using hj, by omega, hviol⟩
      · rw [if_neg hv] at h
        by_cases hl : hasLabel dims (sliceInRange dims d).label = true
        · rw [if_pos hl] at h
          rcases ih _ _ _ _ h with hcase | ⟨j, d2, hj, hij, hviol⟩
          · exact Or.inl hcase
          · exact Or.inr ⟨j + 1, d2, by simpa using hj, by omega, hviol⟩
        · rw [if_neg hl] at h
          rcases ih _ _ _ _ h with hcase | ⟨j, d2, hj, hij, hviol⟩
          · exact Or.inl hcase
          · exact Or.inr ⟨j + 1, d2, by simpa using hj, by omega, hviol⟩

theorem memLoop_overall_some (dom : List Dim) :
    ∀ (descs : List SliceDescriptor) (y : DimId) (pc : Bool) (ds : List Nat),
      ∃ z, (memLoop dom descs (some y) pc ds).1 = some z := by
  intro descs
  induction descs with
  | nil => intro y pc ds; exact ⟨y, rfl⟩
  | cons d rest ih =>
    intro y pc ds
    simp only [memLoop]
    cases hr : resolveDim dom d.label with
    | none => exact ih _ _ _
    | some i => exact ih _ _ _

theorem memLoop_pc_false (dom : List Dim) :
    ∀ (descs : List SliceDescriptor) (ov : Option DimId) (ds : List Nat),
      (memLoop dom descs ov false ds).2.1 = false := by
  intro descs
  induction descs with
  | nil => intro ov ds; rfl
  | cons d rest ih =>
    intro ov ds
    simp only [memLoop]
    cases hr : resolveDim dom d.label with
    | none => exact ih _ _
    | some i => simpa using ih _ _

theorem memLoop_bad (dom : List Dim) :
    ∀ (descs : List SliceDescriptor) (ov : Option DimId) (pc : Bool) (ds : List Nat),
      (∃ d ∈ descs, d.step ≠ 1) →
      (memLoop dom descs ov pc ds).2.1 = false ∨
      ∃ z, (memLoop dom descs ov pc ds).1 = some z := by
  intro descs
  induction descs with
  | nil => intro ov pc ds h; simp at h
  | cons d rest ih =>
    intro ov pc ds h
    simp only [memLoop]
    obtain ⟨d2, hd2, hstep2⟩ := h
    rcases List.mem_cons.mp hd2 with heq | hmem
    · subst heq
      cases hr : resolveDim dom d2.label with
      | none => exact Or.inr (memLoop_overall_some dom rest _ _ _)
      | some i =>
        have hfalse : (pc && decide (d2.step = 1)) = false := by
          simp [hstep2]
        rw [hfalse]
        exact Or.inl (memLoop_pc_false dom rest _ _)
    · cases hr : resolveDim dom d.label with
      | none => exact ih _ _ _ ⟨d2, hmem, hstep2⟩
      | some i => exact ih _ _ _ ⟨d2, hmem, hstep2⟩

/-- Claim C2: any set of slice descriptors containing a descriptor with a
step other than 1 makes slicing fail with an `InvalidArgument` error, on
both the durable `Variable::slice` path and the in-memory
`LabeledArray::slice` path; both methods are const/pure so the original
values are untouched (the model returns only an error and no modified
value). -/
theorem C2_step_not_one (v : Variable) {α : Type} (la : LabeledArray α)
    (descs : List SliceDescriptor) (h : ∃ d ∈ descs, d.step ≠ 1) :
    (∃ e, v.slice descs = .error e ∧ e.kind = .invalidArgument) ∧
    (∃ e2, la.slice descs = .error e2 ∧ e2.kind = .invalidArgument) := by
  constructor
  · rw [Variable.slice]
    rcases hres : sliceLoop v.dims descs 0 .ok [] with ⟨st, acc⟩
    have hne : st ≠ .ok := by
      intro hc
      exact sliceLoop_step_bad v.dims descs 0 .ok [] h (by rw [hres, hc])
    cases st with
    | ok => exact absurd rfl hne
    | stepErr => exact ⟨.stepNotOne, rfl, rfl⟩
    | orderErr i =>
      exact ⟨.illegalConfig (descs.getD i defaultDescriptor).label
        (descs.getD i defaultDescriptor).start (descs.getD i defaultDescriptor).stop,
        rfl, rfl⟩
  · rw [LabeledArray.slice]
    rcases hres : memLoop la.domain descs none true [] with ⟨ov, pc, ds⟩
    rcases memLoop_bad la.domain descs none true [] h with hpc | ⟨z, hov⟩
    · rw [hres] at hpc
      simp only at hpc
      subst hpc
      exact ⟨.stepNotOne, by simp, rfl⟩
    · rw [hres] at hov
      simp only at hov
      subst hov
      by_cases hpc : pc = false
      · subst hpc
        exact ⟨.stepNotOne, by simp, rfl⟩
      · have hpt : pc = true := by
          cases pc
          · exact absurd rfl hpc
          · rfl
        subst hpt
        exact ⟨.resolveFailed z, by simp, rfl⟩

/-- Concrete instance for C2: a step-2 descriptor on a `[0, 10)` domain. -/
def vW2 : Variable :=
  { variableName := "w", longName := "", metadata := .null,
    dims := [{ label := "x", origin := 0, size := 10 }], attributes := 0 }

/-- Concrete in-memory array for the C2 witness. -/
def laW2 : LabeledArray Nat :=
  { domain := [{ label := "x", origin := 0, size := 10 }], data := 0 }

/-- Concrete step-2 descriptor for the C2 witness. -/
def dW2 : SliceDescriptor := { label := .byLabel "x", start := 0, stop := 5, step := 2 }

theorem C2_step_not_one_witness :
    (∃ e, vW2.slice [dW2] = .error e ∧ e.kind = .invalidArgument) ∧
    (∃ e2, laW2.slice [dW2] = .error e2 ∧ e2.kind = .invalidArgument) :=
  C2_step_not_one vW2 laW2 [dW2] ⟨dW2, List.mem_singleton.mpr rfl, by decide⟩

/-- First dimension of a domain carrying a given label. -/
def findDim : List Dim → String → Option Dim
| [], _ => none
| d :: rest, s => if d.label = s then some d else findDim rest s

theorem sliceInRange_found (desc : SliceDescriptor) (s : String)
    (hl : desc.label = .byLabel s) :
    ∀ (dims : List Dim) (d : Dim), findDim dims s = some d →
      sliceInRange dims desc =
        { label := desc.label,
          start := if desc.start < d.origin then d.origin else desc.start,
          stop := if desc.stop > d.size then d.size else desc.stop,
          step := desc.step } := by
  intro dims
  induction dims with
  | nil => intro d h; simp [findDim] at h
  | cons d0 rest ih =>
    intro d h
    simp only [findDim] at h
    by_cases hd : d0.label = s
    · rw [if_pos hd] at h
      cases h
      rw [sliceInRange, if_pos (by simp [hl, DimId.matchesLabel, hd])]
    · rw [if_neg hd] at h
      rw [sliceInRange, if_neg (by simp [hl, DimId.matchesLabel]; exact fun hc => hd hc.symm)]
      exact ih d h

theorem sliceInRange_notfound (desc : SliceDescriptor) (s : String)
    (hl : desc.label = .byLabel s) :
    ∀ dims : List Dim, findDim dims s = none → sliceInRange dims desc = desc := by
  intro dims
  induction dims with
  | nil => intro h; rfl
  | cons d0 rest ih =>
    intro h
    simp only [findDim] at h
    by_cases hd : d0.label = s
    · rw [if_pos hd] at h; cases h
    · rw [if_neg hd] at h
      rw [sliceInRange, if_neg (by simp [hl, DimId.matchesLabel]; exact fun hc => hd hc.symm)]
      exact ih h

/-- Claim C3: for a label-form descriptor naming a dimension present in the
domain, `sliceInRange` raises `start` to that dimension's origin when lower
and lowers `stop` to that dimension's extent value when higher (for the
spec's origin-0 example domain `[0, 100)` the extent value 100 is exactly
the exclusive upper bound); a descriptor naming an absent dimension is
returned unmodified. The last clause is the spec's concrete example. -/
theorem C3_clamping (dims : List Dim) (desc : SliceDescriptor) (s : String)
    (hl : desc.label = .byLabel s) :
    (∀ d, findDim dims s = some d →
      sliceInRange dims desc =
        { label := desc.label,
          start := if desc.start < d.origin then d.origin else desc.start,
          stop := if desc.stop > d.size then d.size else desc.stop,
          step := desc.step } ∧
      (sliceInRange dims desc).start = max desc.start d.origin ∧
      (sliceInRange dims desc).stop = min desc.stop d.size) ∧
    (findDim dims s = none → sliceInRange dims desc = desc) ∧
    sliceInRange [{ label := s, origin := 0, size := 100 }]
        { label := .byLabel s, start := -5, stop := 1000, step := 1 } =
      { label := .byLabel s, start := 0, stop := 100, step := 1 } := by
  refine ⟨?_, sliceInRange_notfound desc s hl dims, ?_⟩
  · intro d h
    have heq := sliceInRange_found desc s hl dims d h
    refine ⟨heq, ?_, ?_⟩
    · rw [heq]
      by_cases hc : desc.start < d.origin
      · rw [if_pos hc]; simp; omega
      · rw [if_neg hc]; simp; omega
    · rw [heq]
      by_cases hc : desc.stop > d.size
      · rw [if_pos hc]; simp; omega
      · rw [if_neg hc]; simp; omega
  · rw [sliceInRange, if_pos (by simp [DimId.matchesLabel])]
    norm_num

theorem C3_clamping_witness :
    sliceInRange [{ label := "inline", origin := 0, size := 100 }]
        { label := .byLabel "inline", start := -5, stop := 1000, step := 1 } =
      { label := .byLabel "inline", start := 0, stop := 100, step := 1 } ∧
    sliceInRange [{ label := "inline", origin := 0, size := 100 }]
        { label := .byLabel "crossline", start := -5, stop := 1000, step := 1 } =
      { label := .byLabel "crossline", start := -5, stop := 1000, step := 1 } := by
  constructor
  · exact (C3_clamping [{ label := "inline", origin := 0, size := 100 }]
      { label := .byLabel "inline", start := -5, stop := 1000, step := 1 }
      "inline" rfl).2.2
  · exact (C3_clamping [{ label := "inline", origin := 0, size := 100 }]
      { label := .byLabel "crossline", start := -5, stop := 1000, step := 1 }
      "crossline" rfl).2.1 (by decide)

/-- Variable over the domain `[0, 10)` labelled `x`, used for the C4
counterexample. -/
def vC4 : Variable :=
  { variableName := "v", longName := "", metadata := .null,
    dims := [{ label := "x", origin := 0, size := 10 }], attributes := 0 }

/-- Descriptor whose clamped bounds `[0, -3)` are inverted while its
original bounds are `[-5, -3)`. -/
def dC4 : SliceDescriptor := { label := .byLabel "x", start := -5, stop := -3, step := 1 }

/-- Counterexample to claim C4 as stated: the inverted-bounds error of
`Variable::slice` carries the violating descriptor's original bounds
`(-5, -3)`, not its clamped bounds `(0, -3)` (the second descriptor pass
rebinds `err` to the unclamped input descriptor). Moreover, when an
inverted descriptor is followed by a non-unit-step descriptor the loop
overwrites the recorded index with the step failure, so the reported error
identifies no descriptor at all. -/
theorem C4_counterexample :
    sliceInRange vC4.dims dC4 =
      { label := .byLabel "x", start := 0, stop := -3, step := 1 } ∧
    vC4.slice [dC4] = .error (.illegalConfig (.byLabel "x") (-5) (-3)) ∧
    vC4.slice [dC4] ≠ .error (.illegalConfig (.byLabel "x") 0 (-3)) ∧
    vC4.slice [dC4, { label := .byLabel "x", start := 0, stop := 5, step := 2 }] =
      .error .stepNotOne := by
  refine ⟨rfl, rfl, ?_, rfl⟩
  intro h
  rw [show vC4.slice [dC4] = .error (.illegalConfig (.byLabel "x") (-5) (-3)) from rfl] at h
  simp at h

/-- Claim C4 as amended: for a slice whose descriptors all have step 1 and
some descriptor has inverted clamped bounds, `Variable::slice` fails with
`InvalidArgument`, and the error identifies a violating descriptor by its
original label and its original (as-supplied) start/stop bounds; the method
is const, so the Variable itself is untouched. -/
theorem C4_inverted_bounds (v : Variable) (descs : List SliceDescriptor)
    (hsteps : ∀ d ∈ descs, d.step = 1)
    (hviol : ∃ d ∈ descs,
      (sliceInRange v.dims d).start > (sliceInRange v.dims d).stop) :
    ∃ d ∈ descs,
      (sliceInRange v.dims d).start > (sliceInRange v.dims d).stop ∧
      v.slice descs = .error (.illegalConfig d.label d.start d.stop) ∧
      (SliceError.illegalConfig d.label d.start d.stop).kind = .invalidArgument := by
  rcases hres : sliceLoop v.dims descs 0 .ok [] with ⟨st, acc⟩
  have hne : st ≠ .ok := by
    intro hc
    exact sliceLoop_viol_bad v.dims descs 0 .ok [] hviol (by rw [hres, hc])
  have hns : st ≠ .stepErr := by
    intro hc
    exact sliceLoop_no_stepErr v.dims descs 0 .ok [] hsteps
      (by intro h2; cases h2) (by rw [hres, hc])
  cases st with
  | ok => exact absurd rfl hne
  | stepErr => exact absurd rfl hns
  | orderErr i =>
    rcases sliceLoop_orderErr_char v.dims descs 0 .ok [] i (by rw [hres]) with
      hcase | ⟨j, d, hj, hij, hv⟩
    · cases hcase
    · have hmem : d ∈ descs := List.get?_mem hj
      have hgetD : descs[i]?.getD defaultDescriptor = d := by
        have hji : i = j := by omega
        subst hji
        have h2 : descs[i]? = some d := by rw [← List.get?_eq_getElem?]; exact hj
        simp [h2]
      refine ⟨d, hmem, hv, ?_, rfl⟩
      rw [Variable.slice, hres]
      simp [hgetD]

theorem C4_inverted_bounds_witness :
    ∃ d ∈ [dC4],
      (sliceInRange vC4.dims d).start > (sliceInRange vC4.dims d).stop ∧
      vC4.slice [dC4] = .error (.illegalConfig d.label d.start d.stop) ∧
      (SliceError.illegalConfig d.label d.start d.stop).kind = .invalidArgument :=
  C4_inverted_bounds vC4 [dC4]
    (by intro d hm; rw [List.mem_singleton] at hm; subst hm; rfl)
    ⟨dC4, List.mem_singleton.mpr rfl, by decide⟩

theorem sliceInRange_absent (dims : List Dim) (desc : SliceDescriptor) (s : String)
    (hl : desc.label = .byLabel s) (habs : ∀ dim ∈ dims, dim.label ≠ s) :
    sliceInRange dims desc = desc := by
  induction dims with
  | nil => rfl
  | cons d0 rest ih =>
    rw [sliceInRange, if_neg]
    · exact ih fun dim hm => habs dim (List.mem_cons_of_mem d0 hm)
    · have := habs d0 (List.mem_cons_self d0 rest)
      simp [hl, DimId.matchesLabel]
      exact fun hc => this hc.symm

theorem hasLabel_absent (dims : List Dim) (s : String)
    (habs : ∀ dim ∈ dims, dim.label ≠ s) :
    hasLabel dims (.byLabel s) = false := by
  simp [hasLabel]
  intro d hm
  simpa using habs d hm

theorem idxOfLabel_absent (s : String) :
    ∀ dims : List Dim, (∀ dim ∈ dims, dim.label ≠ s) →
      idxOfLabel dims s = none := by
  intro dims
  induction dims with
  | nil => intro habs; rfl
  | cons d0 rest ih =>
    intro habs
    rw [idxOfLabel, if_neg (habs d0 (List.mem_cons_self d0 rest))]
    rw [ih fun dim hm => habs dim (List.mem_cons_of_mem d0 hm)]
    rfl

theorem sliceLoop_noop (dims : List Dim) :
    ∀ (descs : List SliceDescriptor) (idx : Nat) (st : Precond)
      (acc : List SliceDescriptor),
      (∀ d ∈ descs, d.step = 1 ∧ d.start ≤ d.stop ∧
        ∃ s, d.label = .byLabel s ∧ ∀ dim ∈ dims, dim.label ≠ s) →
      sliceLoop dims descs idx st acc = (st, acc) := by
  intro descs
  induction descs with
  | nil => intro idx st acc hall; rfl
  | cons d rest ih =>
    intro idx st acc hall
    obtain ⟨hstep, hord, s, hl, habs⟩ := hall d (List.mem_cons_self d rest)
    have hrange := sliceInRange_absent dims d s hl habs
    rw [sliceLoop, if_neg (by simp [hstep])]
    rw [if_neg (by rw [hrange]; omega)]
    rw [if_neg (by rw [hrange, hl]; simp [hasLabel_absent dims s habs])]
    exact ih _ _ _ fun d2 hm => hall d2 (List.mem_cons_of_mem d hm)

theorem memLoop_unresolved (dom : List Dim) :
    ∀ (descs : List SliceDescriptor) (ov : Option DimId) (pc : Bool) (ds : List Nat),
      (∀ d ∈ descs, resolveDim dom d.label = none) →
      ∃ ov2, memLoop dom descs ov pc ds = (ov2, pc, ds) ∧
        (descs ≠ [] → ∃ l, ov2 = some l) := by
  intro descs
  induction descs with
  | nil =>
    intro ov pc ds habs
    exact ⟨ov, rfl, fun h => absurd rfl h⟩
  | cons d rest ih =>
    intro ov pc ds habs
    obtain ⟨ov2, hm, hne2⟩ := ih (some d.label) pc ds
      (fun d2 hm2 => habs d2 (List.mem_cons_of_mem d hm2))
    refine ⟨ov2, ?_, ?_⟩
    · rw [memLoop, habs d (List.mem_cons_self d rest)]
      exact hm
    · intro h2
      by_cases hr : rest = []
      · subst hr
        cases hm
        exact ⟨d.label, rfl⟩
      · exact hne2 hr

/-- Variable over the domain `[0, 10)` labelled `x`, used for the C5
counterexample. -/
def vC5 : Variable :=
  { variableName := "v", longName := "", metadata := .null,
    dims := [{ label := "x", origin := 0, size := 10 }], attributes := 0 }

/-- Descriptor with a label absent from `vC5`'s domain but inverted bounds. -/
def dC5 : SliceDescriptor := { label := .byLabel "zzz", start := 5, stop := 3, step := 1 }

/-- Counterexample to claim C5 as stated: a descriptor whose label is absent
from the domain still passes through the clamp-order check, so with
inverted bounds the durable slice fails with `InvalidArgument` instead of
being a no-op that returns the original Variable. -/
theorem C5_counterexample :
    hasLabel vC5.dims dC5.label = false ∧
    vC5.slice [dC5] = .error (.illegalConfig (.byLabel "zzz") 5 3) ∧
    vC5.slice [dC5] ≠ .ok vC5 := by
  refine ⟨rfl, rfl, ?_⟩
  intro h
  rw [show vC5.slice [dC5] = .error (.illegalConfig (.byLabel "zzz") 5 3) from rfl] at h
  cases h

/-- Claim C5 as amended: for a nonempty set of descriptors, each with step 1
and non-inverted bounds, all of whose labels are absent from the domain,
slicing the durable Variable returns the original value unchanged (identity
slice), while slicing the equivalent in-memory array (same domain) fails
with the propagated label-resolution error. -/
theorem C5_absent_labels {α : Type} (v : Variable) (la : LabeledArray α)
    (descs : List SliceDescriptor)
    (hdom : la.domain = v.dims) (hne : descs ≠ [])
    (habs : ∀ d ∈ descs, ∃ s, d.label = .byLabel s ∧ ∀ dim ∈ v.dims, dim.label ≠ s)
    (hstep : ∀ d ∈ descs, d.step = 1) (hord : ∀ d ∈ descs, d.start ≤ d.stop) :
    v.slice descs = .ok v ∧ ∃ l, la.slice descs = .error (.resolveFailed l) := by
  constructor
  · have hl := sliceLoop_noop v.dims descs 0 .ok [] fun d hm =>
      ⟨hstep d hm, hord d hm, habs d hm⟩
    rw [Variable.slice, hl]
    rfl
  · have hres : ∀ d ∈ descs, resolveDim la.domain d.label = none := by
      intro d hm
      obtain ⟨s, hlab, habs2⟩ := habs d hm
      rw [hlab, resolveDim]
      rw [hdom]
      exact idxOfLabel_absent s v.dims habs2
    obtain ⟨ov2, hml, hsome⟩ := memLoop_unresolved la.domain descs none true [] hres
    obtain ⟨l, hlab⟩ := hsome hne
    subst hlab
    rw [LabeledArray.slice, hml]
    exact ⟨l, by simp⟩

/-- In-memory array with the same domain as `vC5`, for the C5 witness. -/
def laC5 : LabeledArray Nat :=
  { domain := [{ label := "x", origin := 0, size := 10 }], data := 0 }

/-- Well-formed absent-label descriptor for the C5 witness. -/
def dC5w : SliceDescriptor := { label := .byLabel "zzz", start := 1, stop := 2, step := 1 }

theorem C5_absent_labels_witness :
    vC5.slice [dC5w] = .ok vC5 ∧
    ∃ l, laC5.slice [dC5w] = .error (.resolveFailed l) :=
  C5_absent_labels vC5 laC5 [dC5w] rfl (by simp)
    (by
      intro d hm
      rw [List.mem_singleton] at hm
      subst hm
      exact ⟨"zzz", rfl, by decide⟩)
    (by intro d hm; rw [List.mem_singleton] at hm; subst hm; rfl)
    (by intro d hm; rw [List.mem_singleton] at hm; subst hm; decide)

/-- Model of the shared attribute cell
(`std::shared_ptr<std::shared_ptr<UserAttributes>>`): `vals` records every
`UserAttributes` value ever allocated for this cell (a value's address is
its allocation index, modelling an allocator that never reuses a live
identity), and `cur` is the identity of the value currently held by the
inner slot. `UserAttributes` values are immutable and represented by their
`ToJson` form. -/
structure CellState where
  vals : List Json
  cur : Nat

/-- The value currently inside the inner slot (`**attributes`). -/
def CellState.currentValue (s : CellState) : Json := s.vals.getD s.cur .null

/-- The per-instance state of a `Variable` relevant to versioning: the
`attributesAddress` recorded at construction time. Copies of a Variable
share the `CellState` but each carries its own recorded identity. -/
structure VarHandle where
  attributesAddress : Nat

/-- The five-argument `Variable` constructor records the identity of the
value observed inside the shared slot
(`attributesAddress = (*attributes).get()`). -/
def mkVarHandle (s : CellState) : VarHandle := { attributesAddress := s.cur }

/-- Model of `Variable::was_updated`: compares the recorded identity with
the current identity of the value inside the shared slot. -/
def was_updated (v : VarHandle) (s : CellState) : Bool :=
  decide (v.attributesAddress ≠ s.cur)

/-- Model of `Variable::UpdateAttributes`: `(*attributes)->FromJson(newAttrs)`
validates and constructs a new value from the current value and the input
(`fromJson` abstracts `UserAttributes::FromJson`, whose source lives outside
this layer); on success a brand-new `UserAttributes` value is allocated and
installed in the shared inner slot (`*attributes = make_shared(...)`), on
failure the slot is untouched; the caller's recorded identity is never
modified; the validation status is returned either way. -/
def UpdateAttributes (fromJson : Json → Json → Except String Json)
    (v : VarHandle) (s : CellState) (newAttrs : Json) :
    Except String Unit × CellState × VarHandle :=
  match fromJson s.currentValue newAttrs with
  | .error e => (.error e, s, v)
  | .ok val => (.ok (), { vals := s.vals ++ [val], cur := s.vals.length }, v)

/-- Model of `Variable::GetAttributes`: serialize the value currently inside
the shared slot. -/
def GetAttributes (s : CellState) : Json := s.currentValue

/-- Model of `Variable::_dataset_only_callback_committed`: the source
computes the slot's current address but the assignment
`attributesAddress = newAddress` is commented out (with a TODO noting it
caused segfaults), so the handle's recorded identity is returned
unchanged. -/
def dataset_only_callback_committed (v : VarHandle) (s : CellState) : VarHandle :=
  v

/-- Model of `Variable::PublishMetadata` at the key-value interface
boundary: given the completion of the side-document write, the commit
callback is invoked on the owning Variable only when the write succeeded;
a failed write propagates its status and leaves the handle alone. -/
def PublishMetadata (writeResult : Except String Unit) (v : VarHandle)
    (s : CellState) : Except String Unit × VarHandle :=
  match writeResult with
  | .error e => (.error e, v)
  | .ok _ => (.ok (), dataset_only_callback_committed v s)

/-- Claim C6: `UpdateAttributes` is atomic on the shared cell. On
validation failure the inner slot is untouched, `GetAttributes` returns the
same value as before, and the failure is returned as a result; on success
the slot's content is replaced by a brand-new value (an identity different
from every previously allocated one), so every Variable copy sharing the
slot observes the new attributes (`GetAttributes` is a function of the
shared state alone), while the caller's recorded identity is untouched. -/
theorem C6_update_atomic (fromJson : Json → Json → Except String Json)
    (v : VarHandle) (s : CellState) (newAttrs : Json) :
    (∀ e, fromJson s.currentValue newAttrs = .error e →
      UpdateAttributes fromJson v s newAttrs = (.error e, s, v) ∧
      GetAttributes (UpdateAttributes fromJson v s newAttrs).2.1 = GetAttributes s) ∧
    (∀ val, fromJson s.currentValue newAttrs = .ok val →
      (UpdateAttributes fromJson v s newAttrs).1 = .ok () ∧
      (UpdateAttributes fromJson v s newAttrs).2.1.cur = s.vals.length ∧
      (∀ i, i < s.vals.length → (UpdateAttributes fromJson v s newAttrs).2.1.cur ≠ i) ∧
      GetAttributes (UpdateAttributes fromJson v s newAttrs).2.1 = val ∧
      (UpdateAttributes fromJson v s newAttrs).2.2 = v) := by
  constructor
  · intro e he
    refine ⟨?_, ?_⟩ <;> simp [UpdateAttributes, he]
  · intro val hv
    refine ⟨?_, ?_, ?_, ?_, ?_⟩
    · simp [UpdateAttributes, hv]
    · simp [UpdateAttributes, hv]
    · intro i hi
      simp only [UpdateAttributes, hv]
      simp
      omega
    · have hred : (UpdateAttributes fromJson v s newAttrs).2.1 =
          { vals := s.vals ++ [val], cur := s.vals.length } := by
        simp [UpdateAttributes, hv]
      rw [hred]
      simp [GetAttributes, CellState.currentValue, List.getElem?_append_right]
    · simp [UpdateAttributes, hv]

/-- Validation function for the C6 witness: reject `null`, accept anything
else unchanged. -/
def fromJsonW6 : Json → Json → Except String Json :=
  fun _ n =>
    match n with
    | .null => .error "invalid"
    | j => .ok j

/-- Initial cell for the C6 and C7 witnesses. -/
def sW6 : CellState := { vals := [.num 0], cur := 0 }

/-- Handle recorded against `sW6`. -/
def vW6 : VarHandle := mkVarHandle sW6

theorem C6_update_atomic_witness :
    (UpdateAttributes fromJsonW6 vW6 sW6 .null = (.error "invalid", sW6, vW6) ∧
      GetAttributes (UpdateAttributes fromJsonW6 vW6 sW6 .null).2.1 =
        GetAttributes sW6) ∧
    ((UpdateAttributes fromJsonW6 vW6 sW6 (.num 5)).1 = .ok () ∧
      GetAttributes (UpdateAttributes fromJsonW6 vW6 sW6 (.num 5)).2.1 = .num 5 ∧
      (UpdateAttributes fromJsonW6 vW6 sW6 (.num 5)).2.2 = vW6) := by
  constructor
  · exact (C6_update_atomic fromJsonW6 vW6 sW6 .null).1 "invalid" rfl
  · have h := (C6_update_atomic fromJsonW6 vW6 sW6 (.num 5)).2 (.num 5) rfl
    exact ⟨h.1, h.2.2.2.1, h.2.2.2.2⟩

/-- Claim C7: `was_updated` returns true iff this Variable's recorded
identity differs from the current identity of the value inside the shared
slot; after a successful `UpdateAttributes`, it is true for every handle
whose identity was recorded before the update (any previously allocated
identity), and false for a Variable freshly constructed from the updated
cell. -/
theorem C7_was_updated (fromJson : Json → Json → Except String Json)
    (v : VarHandle) (s : CellState) (newAttrs val : Json)
    (hok : fromJson s.currentValue newAttrs = .ok val) :
    (∀ (w : VarHandle) (s2 : CellState),
      was_updated w s2 = true ↔ w.attributesAddress ≠ s2.cur) ∧
    (∀ w : VarHandle, w.attributesAddress < s.vals.length →
      was_updated w (UpdateAttributes fromJson v s newAttrs).2.1 = true) ∧
    was_updated (mkVarHandle (UpdateAttributes fromJson v s newAttrs).2.1)
      (UpdateAttributes fromJson v s newAttrs).2.1 = false := by
  refine ⟨?_, ?_, ?_⟩
  · intro w s2
    simp [was_updated]
  · intro w hw
    simp only [UpdateAttributes, hok]
    simp [was_updated]
    omega
  · simp [was_updated, mkVarHandle]

theorem C7_was_updated_witness :
    (∀ w : VarHandle, w.attributesAddress < sW6.vals.length →
      was_updated w (UpdateAttributes fromJsonW6 vW6 sW6 (.num 5)).2.1 = true) ∧
    was_updated (mkVarHandle (UpdateAttributes fromJsonW6 vW6 sW6 (.num 5)).2.1)
      (UpdateAttributes fromJsonW6 vW6 sW6 (.num 5)).2.1 = false := by
  have h := C7_was_updated fromJsonW6 vW6 sW6 (.num 5) (.num 5) rfl
  exact ⟨h.2.1, h.2.2⟩

/-- Validation function for the C8 failing scenario: accept anything. -/
def fromJsonC8 : Json → Json → Except String Json := fun _ n => .ok n

/-- Cell after one successful `UpdateAttributes` from the initial state
`{vals := [null], cur := 0}`. -/
def sC8after : CellState :=
  (UpdateAttributes fromJsonC8 (mkVarHandle { vals := [.null], cur := 0 })
    { vals := [.null], cur := 0 } (.num 1)).2.1

/-- The authoritative handle, constructed before the update. -/
def vC8after : VarHandle :=
  (UpdateAttributes fromJsonC8 (mkVarHandle { vals := [.null], cur := 0 })
    { vals := [.null], cur := 0 } (.num 1)).2.2

/-- Claim C8 failing scenario: after a successful `UpdateAttributes` the
owning Variable has a stale recorded identity; the side-document publish
succeeds and invokes the commit callback, but because the callback's
identity assignment is commented out in the source, the handle is returned
unchanged and `was_updated` remains true — the recorded identity does not
become the slot's current identity as the claim requires. -/
theorem C8_commit_callback_noop :
    (PublishMetadata (.ok ()) vC8after sC8after).1 = .ok () ∧
    (PublishMetadata (.ok ()) vC8after sC8after).2 = vC8after ∧
    was_updated vC8after sC8after = true ∧
    was_updated (PublishMetadata (.ok ()) vC8after sC8after).2 sC8after = true :=
  ⟨rfl, rfl, rfl, rfl⟩

/-- String content of a JSON value (`get<std::string>`); the modelled code
paths only apply it to strings. -/
def Json.asString : Json → String
| .str s => s
| _ => ""

/-- Final path component, as by `std::filesystem::path::filename`. -/
def lastComponent (p : String) : String :=
  (p.splitOn "/").getLastD ""

/-- Model of `std::filesystem::path::stem`: the final path component
without its final extension; the special names `.` and `..` and a leading
dot with no further dot are kept whole. -/
def pathStem (p : String) : String :=
  let fname := lastComponent p
  if fname = "." ∨ fname = ".." then fname
  else
    match (List.reverse fname.toList).findIdx? (fun c => c = '.') with
    | none => fname
    | some r =>
      let i := fname.toList.length - 1 - r
      if i = 0 then fname else String.mk (fname.toList.take i)

/-- Failures of `internal::ValidateAndProcessJson`: the schema document
lacks an `attributes` section, or that section lacks `dimension_names`. -/
inductive SchemaError where
| missingAttributes
| missingDimensionNames
deriving DecidableEq

/-- Status kind of a schema validation failure
(`absl::InvalidArgumentError` in both cases). -/
def SchemaError.kind : SchemaError → ErrKind
| .missingAttributes => .invalidArgument
| .missingDimensionNames => .invalidArgument

/-- Model of `internal::ValidateAndProcessJson`: check `attributes` and
`attributes.dimension_names`, then return the document minus `attributes`
(for the storage engine) together with the `attributes` section annotated
with a `variable_name` equal to the stem of `kvstore.path`. -/
def ValidateAndProcessJson (json_spec : Json) : Except SchemaError (Json × Json) :=
  if json_spec.contains "attributes" then
    if (json_spec.getKey "attributes").contains "dimension_names" then
      .ok (json_spec.erase "attributes",
        (json_spec.getKey "attributes").setKey "variable_name"
          (.str (pathStem ((json_spec.getKey "kvstore").getKey "path").asString)))
    else .error .missingDimensionNames
  else .error .missingAttributes

/-- Claim C9: the split-and-validate step of the create path fails with
`InvalidArgument` for a schema lacking an `attributes` section or whose
`attributes` lacks `dimension_names`; with both present it returns the
original document minus `attributes` for the storage engine, and the
`attributes` section annotated with a `variable_name` equal to the stem of
the storage path's final component. -/
theorem C9_validate_and_process (spec : Json) (p : String)
    (hpath : (spec.getKey "kvstore").lookup "path" = some (.str p)) :
    (spec.contains "attributes" = false →
      ValidateAndProcessJson spec = .error .missingAttributes ∧
      SchemaError.missingAttributes.kind = .invalidArgument) ∧
    (∀ attrs, spec.lookup "attributes" = some attrs →
      attrs.contains "dimension_names" = false →
      ValidateAndProcessJson spec = .error .missingDimensionNames ∧
      SchemaError.missingDimensionNames.kind = .invalidArgument) ∧
    (∀ attrs, spec.lookup "attributes" = some attrs →
      attrs.contains "dimension_names" = true →
      ValidateAndProcessJson spec =
        .ok (spec.erase "attributes",
          attrs.setKey "variable_name" (.str (pathStem p)))) := by
  refine ⟨?_, ?_, ?_⟩
  · intro hno
    rw [ValidateAndProcessJson, if_neg (by simp [hno])]
    exact ⟨rfl, rfl⟩
  · intro attrs hat hno
    rw [ValidateAndProcessJson,
      if_pos (by simp [Json.contains, hat]),
      if_neg (by simp [Json.getKey, hat, hno])]
    exact ⟨rfl, rfl⟩
  · intro attrs hat hyes
    rw [ValidateAndProcessJson,
      if_pos (by simp [Json.contains, hat]),
      if_pos (by simp [Json.getKey, hat, hyes])]
    rw [show (spec.getKey "kvstore").getKey "path" = .str p by
      simp only [Json.getKey] at hpath ⊢
      rw [hpath]
      rfl]
    rw [show spec.getKey "attributes" = attrs by simp [Json.getKey, hat]]
    rfl

/-- Concrete schema document for the C9 witness: a `velocity` variable under
`segy/velocity` with `attributes.dimension_names`. -/
def specW9 : Json :=
  .obj [("attributes", .obj [("dimension_names", .arr [.str "inline", .str "crossline"])]),
        ("kvstore", .obj [("driver", .str "file"), ("path", .str "segy/velocity")]),
        ("metadata", .obj [("dtype", .str "<f4")])]

/-- Schema document missing `dimension_names`, for the C9 witness. -/
def specW9b : Json :=
  .obj [("attributes", .obj [("long_name", .str "v")]),
        ("kvstore", .obj [("driver", .str "file"), ("path", .str "segy/velocity")])]

/-- Schema document missing `attributes`, for the C9 witness. -/
def specW9c : Json :=
  .obj [("kvstore", .obj [("driver", .str "file"), ("path", .str "segy/velocity")])]

theorem C9_validate_and_process_witness :
    ValidateAndProcessJson specW9c = .error .missingAttributes ∧
    ValidateAndProcessJson specW9b = .error .missingDimensionNames ∧
    ValidateAndProcessJson specW9 =
      .ok (specW9.erase "attributes",
        (Json.obj [("dimension_names", .arr [.str "inline", .str "crossline"])]).setKey
          "variable_name" (.str (pathStem "segy/velocity"))) := by
  refine ⟨?_, ?_, ?_⟩
  · exact ((C9_validate_and_process specW9c "segy/velocity" rfl).1 rfl).1
  · exact ((C9_validate_and_process specW9b "segy/velocity" rfl).2.1
      (Json.obj [("long_name", .str "v")]) rfl rfl).1
  · exact (C9_validate_and_process specW9 "segy/velocity" rfl).2.2
      (Json.obj [("dimension_names", .arr [.str "inline", .str "crossline"])]) rfl rfl

/-- Whether the backend's declared driver identifier is a cloud object
store (`driver == "gcs" || driver == "s3"`). -/
def isCloudStoreDriver (driver : String) : Bool :=
  driver == "gcs" || driver == "s3"

/-- The side-document path chosen by the create path's publish lambda:
`.zattrs` without a leading separator for cloud stores, `/.zattrs`
otherwise. -/
def createSideDocWritePath (driver : String) : String :=
  if isCloudStoreDriver driver then ".zattrs" else "/.zattrs"

/-- The side-document path used by the open path's read lambda: the
constant `/.zattrs`, independent of the backend. -/
def openSideDocReadPath : String := "/.zattrs"

/-- Claim C10: the open path always reads the side-document at `/.zattrs`
with a leading separator for every backend, even though the create path
writes it to `.zattrs` without a leading separator when the declared driver
is `gcs` or `s3` (and to `/.zattrs` otherwise), so the two paths disagree
on cloud-object backends. -/
theorem C10_side_doc_paths :
    openSideDocReadPath = "/.zattrs" ∧
    createSideDocWritePath "gcs" = ".zattrs" ∧
    createSideDocWritePath "s3" = ".zattrs" ∧
    createSideDocWritePath "file" = "/.zattrs" ∧
    createSideDocWritePath "gcs" ≠ openSideDocReadPath ∧
    createSideDocWritePath "s3" ≠ openSideDocReadPath := by
  refine ⟨rfl, rfl, rfl, rfl, ?_, ?_⟩ <;> decide
